import Mathlib

/-!
Verification of the segmentation, effect-scheduling and timeline-assembly
core of `anime_edit_automator.py`.

Times and durations are modelled as rationals.  The external media stack
(librosa decoding, moviepy rendering, file IO) is out of scope, per the
specification; what the model tracks exactly are the quantities the core
manipulates: source intervals, clip durations, timeline placements
(`clip.start` / `clip.end` after `set_start` / `set_duration`), the effect
tags attached to each accepted segment, the flash overlays appended to the
`timeline` list, and the final composite duration.

Random draws (`random.uniform` for segment lengths and punch-in zooms,
`random.choice` for ramp patterns) are modelled by an injectable source of
streams indexed by how many draws of that kind have happened, mirroring the
points in the code where each draw is consumed.
-/

namespace AnimeEdit

/-- Pattern argument of `velocity_ramp`; the code draws it with
`random.choice(["slow-into-fast", "fast-into-slow"])`. -/
inductive RampPattern where
  | slowIntoFast
  | fastIntoSlow
  deriving DecidableEq

/-- Tags for the effect wrappers applied to an accepted segment, in the
order the code applies them.  `colorGrade` stands for the unconditional
pair `colorx(sub, 1.05)` followed by `lum_contrast(sub, lum=8, contrast=20)`;
neither changes the clip duration, nor do `punch_in` (a `resize`) and
`micro_shake` (a crop), so only `velocityRamp` affects timeline length. -/
inductive Effect where
  | velocityRamp (pattern : RampPattern)
  | punchIn (maxZoom : ℚ)
  | shake
  | colorGrade
  deriving DecidableEq

/-- An accepted segment: source interval `[srcStart, srcEnd)`, timeline
placement starting at `tlStart` with timeline duration `dur`, acceptance
index `idx` (the value of `seg_idx` when the segment was built), and its
ordered effect tags. -/
structure Segment where
  srcStart : ℚ
  srcEnd : ℚ
  tlStart : ℚ
  dur : ℚ
  idx : ℕ
  effects : List Effect
  deriving DecidableEq

/-- A full-frame overlay (white flash or letterbox bar). -/
structure Overlay where
  tlStart : ℚ
  dur : ℚ
  opacity : ℚ
  deriving DecidableEq

/-- Model of `flash_white(duration=0.06, ...)`:
`ColorClip(size, color=(255,255,255)).set_duration(duration).set_opacity(0.8)`.
The clip starts at 0 until `set_start` moves it. -/
def flash_white (duration : ℚ) : Overlay :=
  { tlStart := 0, dur := duration, opacity := 8/10 }

/-- An element of the `timeline` list built by `build_edit`: either an
accepted (effect-wrapped) segment clip or a flash overlay clip. -/
inductive Entry where
  | seg (s : Segment)
  | flash (f : Overlay)
  deriving DecidableEq

/-- The `clip.end` attribute of a timeline entry (`start + duration`). -/
def Entry.tlEnd : Entry → ℚ
  | .seg s => s.tlStart + s.dur
  | .flash f => f.tlStart + f.dur

/-- The `clip.start` attribute of a timeline entry. -/
def Entry.tlStart : Entry → ℚ
  | .seg s => s.tlStart
  | .flash f => f.tlStart

/-- Timeline duration of `velocity_ramp(clip, slow_factor=0.75,
fast_factor=1.15, pattern)` applied to a clip of duration `d`: the code
splits the clip at `mid = dur/2`, speeds the first half by one factor and
the second half by the other (`speedx` divides a clip's duration by its
factor), then composites the halves back to back, so the result's duration
is `mid/f1 + (d - mid)/f2`. -/
def velocity_ramp_duration (d : ℚ) (pattern : RampPattern) : ℚ :=
  let mid := d / 2
  match pattern with
  | .slowIntoFast => mid / (75/100) + (d - mid) / (115/100)
  | .fastIntoSlow => mid / (115/100) + (d - mid) / (75/100)

/-- Injectable random source: `lengths n` is the value of the `n`-th
`random.uniform(clip_min, clip_max)` draw, `ramps n` the `n`-th
`random.choice` ramp-pattern draw, `zooms n` the `n`-th
`random.uniform(1.06, 1.12)` draw. -/
structure RandSource where
  lengths : ℕ → ℚ
  ramps : ℕ → RampPattern
  zooms : ℕ → ℚ

/-- The parameters of `build_edit` that the planning loop reads, with
`totalDur = min(video.duration, music.duration)` already computed. -/
structure Config where
  beats : List ℚ
  totalDur : ℚ
  clipMin : ℚ
  clipMax : ℚ
  zoomEveryN : ℕ
  flashEveryN : ℕ
  shake : Bool

/-- The mutable state of the `while` loop in `build_edit`: the `timeline`
list, the cursors `t`, `seg_idx`, `beat_idx`, and the number of random
draws of each kind consumed so far. -/
structure PlanState where
  timeline : List Entry
  t : ℚ
  segIdx : ℕ
  beatIdx : ℕ
  nLen : ℕ
  nRamp : ℕ
  nZoom : ℕ
  deriving DecidableEq

/-- The ordered effect tags attached to the candidate accepted at state
`st` with source duration `srcDur`, mirroring lines 193-206 of the code:
velocity ramp when `seg_idx % 5 == 2 and (end - start) >= 0.6`, punch-in
when `seg_idx % zoom_every_n == 0`, shake when `shake and seg_idx % 2 == 1`,
and the colour grade always. -/
def segmentEffects (cfg : Config) (rnd : RandSource) (st : PlanState) (srcDur : ℚ) : List Effect :=
  (if st.segIdx % 5 = 2 ∧ (6/10 : ℚ) ≤ srcDur then [Effect.velocityRamp (rnd.ramps st.nRamp)] else [])
    ++ (if st.segIdx % cfg.zoomEveryN = 0 then [Effect.punchIn (rnd.zooms st.nZoom)] else [])
    ++ (if cfg.shake ∧ st.segIdx % 2 = 1 then [Effect.shake] else [])
    ++ [Effect.colorGrade]

/-- One iteration of the `while` loop body (lines 180-219), to be run when
the loop condition holds.  The three branches are: stale beat
(`start < t`: advance `beat_idx` only), too-short candidate
(`end - start < 0.12`: advance `beat_idx`, one length draw consumed), and
acceptance.  On acceptance the clip is `video.subclip(start, end)` wrapped
by the scheduled effects (its `start` attribute stays 0), then
`set_start(timeline[-1].end)` when the timeline is nonempty, appended, and
the cursors updated: `t = timeline[-1].end` and
`beat_idx += int(max(1, math.ceil(length / 0.35)))`; finally, when the
incremented `seg_idx` hits a multiple of `flash_every_n`, a
`flash_white()` overlay started at `timeline[-1].start` is appended. -/
def planStep (cfg : Config) (rnd : RandSource) (st : PlanState) : PlanState :=
  let start := cfg.beats.getD st.beatIdx 0
  if start < st.t then
    { st with beatIdx := st.beatIdx + 1 }
  else
    let length := rnd.lengths st.nLen
    let stop := min (start + length) cfg.totalDur
    if stop - start < 12/100 then
      { st with beatIdx := st.beatIdx + 1, nLen := st.nLen + 1 }
    else
      let srcDur := stop - start
      let dur := if st.segIdx % 5 = 2 ∧ (6/10 : ℚ) ≤ srcDur
        then velocity_ramp_duration srcDur (rnd.ramps st.nRamp) else srcDur
      let tlStart := match st.timeline.getLast? with
        | none => 0
        | some e => e.tlEnd
      let s : Segment :=
        { srcStart := start, srcEnd := stop, tlStart := tlStart, dur := dur,
          idx := st.segIdx, effects := segmentEffects cfg rnd st srcDur }
      let timeline1 := st.timeline ++ [Entry.seg s]
      let timeline2 := if (st.segIdx + 1) % cfg.flashEveryN = 0
        then timeline1 ++ [Entry.flash { flash_white (6/100) with tlStart := s.tlStart }]
        else timeline1
      { timeline := timeline2,
        t := tlStart + dur,
        segIdx := st.segIdx + 1,
        beatIdx := st.beatIdx + (max 1 ⌈length / (35/100 : ℚ)⌉).toNat,
        nLen := st.nLen + 1,
        nRamp := st.nRamp + (if st.segIdx % 5 = 2 ∧ (6/10 : ℚ) ≤ srcDur then 1 else 0),
        nZoom := st.nZoom + (if st.segIdx % cfg.zoomEveryN = 0 then 1 else 0) }

/-- The `while t < total_dur - clip_min and beat_idx < len(beats)` loop,
iterated with explicit fuel.  Every iteration advances `beat_idx` by at
least one and the loop only runs while `beat_idx < len(beats)`, so
`len(beats)` units of fuel always suffice (proved below); `build_edit`
runs the loop with exactly that much fuel. -/
def planLoop (cfg : Config) (rnd : RandSource) : ℕ → PlanState → PlanState
  | 0, st => st
  | fuel + 1, st =>
    if st.t < cfg.totalDur - cfg.clipMin ∧ st.beatIdx < cfg.beats.length then
      planLoop cfg rnd fuel (planStep cfg rnd st)
    else st

/-- The loop state before the first iteration: empty timeline, `t = 0.0`,
`seg_idx = 0`, `beat_idx = 0`, no draws consumed. -/
def initState : PlanState :=
  { timeline := [], t := 0, segIdx := 0, beatIdx := 0, nLen := 0, nRamp := 0, nZoom := 0 }

/-- The final loop state of a `build_edit` run with the given config and
random source. -/
def plan (cfg : Config) (rnd : RandSource) : PlanState :=
  planLoop cfg rnd cfg.beats.length initState

/-- What `build_edit` hands to the renderer: the timeline entries, the
composite's duration `min(t, total_dur)`, and the letterbox bars (two
full-height bars spanning the whole composite when enabled). -/
structure EditResult where
  timeline : List Entry
  totalDuration : ℚ
  letterboxBars : List Overlay
  deriving DecidableEq

/-- Model of `build_edit(video, audio, out, ...)` less the encoding calls.
`videoDur` and `musicDur` stand for `video.duration` and `music.duration`;
`beats` is the result of `detect_beats(audio_path)` (external signal
analysis).  Python defaults: `clip_min=0.25, clip_max=1.25, zoom_every_n=3,
flash_every_n=4, shake=True, letterbox=True`. -/
def build_edit (videoDur musicDur : ℚ) (beats : List ℚ)
    (clip_min clip_max : ℚ) (zoom_every_n flash_every_n : ℕ)
    (shake letterbox : Bool) (rnd : RandSource) : EditResult :=
  let total_dur := min videoDur musicDur
  let cfg : Config :=
    { beats := beats, totalDur := total_dur, clipMin := clip_min, clipMax := clip_max,
      zoomEveryN := zoom_every_n, flashEveryN := flash_every_n, shake := shake }
  let final := plan cfg rnd
  let compDur := min final.t total_dur
  { timeline := final.timeline,
    totalDuration := compDur,
    letterboxBars := if letterbox then
        [{ tlStart := 0, dur := compDur, opacity := 1 },
         { tlStart := 0, dur := compDur, opacity := 1 }]
      else [] }

/-- The accepted segments of a timeline, in order. -/
def Entry.segOf? : Entry → Option Segment
  | .seg s => some s
  | .flash _ => none

/-- The flash overlays of a timeline, in order. -/
def Entry.flashOf? : Entry → Option Overlay
  | .seg _ => none
  | .flash f => some f

/-- All accepted segments on a timeline, in order. -/
def timelineSegments (tl : List Entry) : List Segment := tl.filterMap Entry.segOf?

/-- All flash overlays on a timeline, in order. -/
def timelineFlashes (tl : List Entry) : List Overlay := tl.filterMap Entry.flashOf?

/-- Whether an effect tag is a velocity ramp. -/
def Effect.isVelocityRamp : Effect → Bool
  | .velocityRamp _ => true
  | _ => false

/-- Whether an effect tag is a punch-in. -/
def Effect.isPunchIn : Effect → Bool
  | .punchIn _ => true
  | _ => false

/-- Whether an effect tag is the shake. -/
def Effect.isShake : Effect → Bool
  | .shake => true
  | _ => false

/-- Whether an effect tag is the colour grade. -/
def Effect.isColorGrade : Effect → Bool
  | .colorGrade => true
  | _ => false

/-- A segment carries a velocity ramp. -/
def Segment.hasVelocityRamp (s : Segment) : Bool := s.effects.any Effect.isVelocityRamp

/-- A segment carries a punch-in. -/
def Segment.hasPunchIn (s : Segment) : Bool := s.effects.any Effect.isPunchIn

/-- A segment carries the shake. -/
def Segment.hasShake (s : Segment) : Bool := s.effects.any Effect.isShake

/-- A segment carries the colour grade. -/
def Segment.hasColorGrade (s : Segment) : Bool := s.effects.any Effect.isColorGrade

/-- The minimum-spacing pass of `detect_beats` (lines 141-147): walk the
merged, sorted onset array and keep a time only when it is at least
`min_gap` after the last kept one, starting from `last = -999`. -/
def min_gap_filter (minGap : ℚ) : ℚ → List ℚ → List ℚ
  | _, [] => []
  | last, t :: ts =>
    if t - last ≥ minGap then t :: min_gap_filter minGap t ts
    else min_gap_filter minGap last ts

/-- Python's bankers rounding of a rational to the nearest integer
(round half to even), as used by `round`. -/
def roundHalfEven (x : ℚ) : ℤ :=
  if Int.fract x < 1/2 then ⌊x⌋
  else if 1/2 < Int.fract x then ⌊x⌋ + 1
  else if Even ⌊x⌋ then ⌊x⌋ else ⌊x⌋ + 1

/-- Python's `round(x, 3)`. -/
def pyRound3 (x : ℚ) : ℚ := (roundHalfEven (1000 * x) : ℚ) / 1000

/-- The pure tail of `detect_beats` (lines 140-150).  The librosa calls
producing `onsets` (detected onset times) and `strong` (times of
above-75th-percentile onset strength) are external signal analysis; the
code then sorts their concatenation (`np.sort(np.concatenate(...))`),
keeps times at least `0.12` apart, rounds each survivor to 3 decimals
(`round(b, 3)`), and returns `sorted(list(set(...)))`. -/
def detect_beats (onsets strong : List ℚ) : List ℚ :=
  let merged := List.insertionSort (· ≤ ·) (onsets ++ strong)
  let beats := min_gap_filter (12/100) (-999) merged
  List.insertionSort (· ≤ ·) ((beats.map pyRound3).dedup)

/-- A random source whose every length draw returns `q`; ramp patterns and
zooms are fixed admissible values. -/
def constRand (q : ℚ) : RandSource :=
  { lengths := fun _ => q, ramps := fun _ => RampPattern.slowIntoFast, zooms := fun _ => 106/100 }

/-- A random source drawing two short lengths (0.25) and then long ones
(1.25), used to reach a third accepted segment long enough for the
velocity-ramp rule. -/
def rampRand : RandSource :=
  { lengths := fun n => if n < 2 then 25/100 else 125/100,
    ramps := fun _ => RampPattern.slowIntoFast, zooms := fun _ => 106/100 }

/-- The worked-scenario configuration of the specification: beats
`[0.0, 0.2, 0.5, 0.9, 1.4, 2.0]`, total available duration `2.0`,
`minLen = 0.25`, `maxLen = 0.5`, with the code's fixed `zoom_every_n = 3`,
`flash_every_n = 4`, shake enabled. -/
def cfgScenario : Config :=
  { beats := [0, 1/5, 1/2, 9/10, 7/5, 2], totalDur := 2, clipMin := 1/4, clipMax := 1/2,
    zoomEveryN := 3, flashEveryN := 4, shake := true }

/-- A one-beat configuration whose single beat lies at `0.5`, away from
time zero, separating source time from output-timeline time. -/
def cfgLateBeat : Config :=
  { beats := [1/2], totalDur := 2, clipMin := 1/4, clipMax := 5/4,
    zoomEveryN := 3, flashEveryN := 4, shake := true }

/-- A small configuration used to instantiate the general theorems on a
concrete run: one beat at `0`, flash on every accepted segment. -/
def cfgOneBeat : Config :=
  { beats := [0], totalDur := 10, clipMin := 1/4, clipMax := 5/4,
    zoomEveryN := 3, flashEveryN := 1, shake := true }

/-- The configuration of the `rampRand` run: beats `[0, 0.3, 0.5]`,
available duration `1.2`, python defaults otherwise. -/
def cfgRamp : Config :=
  { beats := [0, 3/10, 1/2], totalDur := 6/5, clipMin := 1/4, clipMax := 5/4,
    zoomEveryN := 3, flashEveryN := 4, shake := true }

/-- The velocity-ramped segment accepted third on the `cfgRamp` run. -/
def segRamp : Segment :=
  { srcStart := 1/2, srcEnd := 6/5, tlStart := 1/2, dur := 266/345, idx := 2,
    effects := [Effect.velocityRamp RampPattern.slowIntoFast, Effect.colorGrade] }

/-- The single segment accepted on the `cfgOneBeat` run with constant
length draw `0.3`. -/
def segOne : Segment :=
  { srcStart := 0, srcEnd := 3/10, tlStart := 0, dur := 3/10, idx := 0,
    effects := [Effect.punchIn (53/50), Effect.colorGrade] }

/-- The segment built by the acceptance branch of `planStep` at state `st`
(before the cursors move). -/
def acceptedSeg (cfg : Config) (rnd : RandSource) (st : PlanState) : Segment :=
  let start := cfg.beats.getD st.beatIdx 0
  let stop := min (start + rnd.lengths st.nLen) cfg.totalDur
  let srcDur := stop - start
  { srcStart := start,
    srcEnd := stop,
    tlStart := match st.timeline.getLast? with
      | none => 0
      | some e => e.tlEnd,
    dur := if st.segIdx % 5 = 2 ∧ (6/10 : ℚ) ≤ srcDur
      then velocity_ramp_duration srcDur (rnd.ramps st.nRamp) else srcDur,
    idx := st.segIdx,
    effects := segmentEffects cfg rnd st srcDur }

/-- The state after the acceptance branch of `planStep`, written with the
flash append pulled out as a trailing list. -/
def acceptState (cfg : Config) (rnd : RandSource) (st : PlanState) : PlanState :=
  let s := acceptedSeg cfg rnd st
  let srcDur := s.srcEnd - s.srcStart
  { timeline := st.timeline ++ [Entry.seg s]
      ++ (if (st.segIdx + 1) % cfg.flashEveryN = 0
          then [Entry.flash { flash_white (6/100) with tlStart := s.tlStart }] else []),
    t := s.tlStart + s.dur,
    segIdx := st.segIdx + 1,
    beatIdx := st.beatIdx + (max 1 ⌈rnd.lengths st.nLen / (35/100 : ℚ)⌉).toNat,
    nLen := st.nLen + 1,
    nRamp := st.nRamp + (if st.segIdx % 5 = 2 ∧ (6/10 : ℚ) ≤ srcDur then 1 else 0),
    nZoom := st.nZoom + (if st.segIdx % cfg.zoomEveryN = 0 then 1 else 0) }

/-- The invariant a single accepted segment satisfies, relative to the run
configuration: minimum length, clamping to the available duration, the
effect-periodicity rules, and the timeline-duration rule. -/
def SegWF (cfg : Config) (s : Segment) : Prop :=
  12/100 ≤ s.srcEnd - s.srcStart ∧
  s.srcEnd ≤ cfg.totalDur ∧
  (s.hasVelocityRamp = true ↔ (s.idx % 5 = 2 ∧ (6/10 : ℚ) ≤ s.srcEnd - s.srcStart)) ∧
  (s.hasPunchIn = true ↔ s.idx % cfg.zoomEveryN = 0) ∧
  (s.hasShake = true ↔ (cfg.shake = true ∧ s.idx % 2 = 1)) ∧
  s.hasColorGrade = true ∧
  s.dur = (if s.idx % 5 = 2 ∧ (6/10 : ℚ) ≤ s.srcEnd - s.srcStart
    then 76/69 * (s.srcEnd - s.srcStart) else s.srcEnd - s.srcStart)

/-- The flash overlay scheduled for segment `s`, when its index triggers
one. -/
def flashFor (cfg : Config) (s : Segment) : Option Overlay :=
  if (s.idx + 1) % cfg.flashEveryN = 0
  then some { flash_white (6/100) with tlStart := s.tlStart } else none

/-- The loop invariant: every accepted segment on the timeline is
well-formed, the flash overlays are exactly the ones scheduled by the
accepted segments (in order), and the time cursor equals the last accepted
segment's timeline end (or `0` before the first acceptance). -/
def Inv (cfg : Config) (st : PlanState) : Prop :=
  (∀ s ∈ timelineSegments st.timeline, SegWF cfg s) ∧
  timelineFlashes st.timeline = (timelineSegments st.timeline).filterMap (flashFor cfg) ∧
  ∀ s, (timelineSegments st.timeline).getLast? = some s → st.t = s.tlStart + s.dur

/-! ## Helper lemmas -/

/-- Both ramp patterns stretch a clip of duration `d` to `76/69 · d`:
`d/2 / 0.75 + d/2 / 1.15 = d · (2/3 + 10/23) = 76/69 · d`. -/
theorem velocity_ramp_duration_eq (d : ℚ) (p : RampPattern) :
    velocity_ramp_duration d p = 76/69 * d := by
  cases p <;> (unfold velocity_ramp_duration; ring)

/-! ## Concrete counterexample evaluations -/

/-- C1: on the run with beats `[0,1,2,3,4]`, ten-second video and music,
default parameters and every length draw `0.3`, the fourth accepted
segment (index 3) occupies `[0.9, 1.2)` on the timeline and triggers a
flash overlay; the fifth accepted segment is then chained onto
`timeline[-1].end`, which is the flash's end `0.9 + 0.06 = 0.96`, so it
starts at `0.96`, not at `1.2`: contiguity fails across the flash. -/
theorem c1_flash_breaks_contiguity :
    (timelineSegments (build_edit 10 10 [0, 1, 2, 3, 4] (1/4) (5/4) 3 4 true true
          (constRand (3/10))).timeline).map (fun s => (s.tlStart, s.tlStart + s.dur)) =
      [(0, 3/10), (3/10, 3/5), (3/5, 9/10), (9/10, 6/5), (24/25, 63/50)] ∧
    ((24/25 : ℚ) ≠ 6/5) := by
  have hc : (⌈(6/7 : ℚ)⌉ : ℤ) = 1 := by norm_num [Int.ceil_eq_iff]
  norm_num [build_edit, plan, planLoop, planStep, initState, constRand, segmentEffects,
    velocity_ramp_duration, flash_white, Entry.tlEnd, timelineSegments, Entry.segOf?, List.filterMap_cons, List.filterMap_nil, hc]

/-- C2 counterexample: the worked scenario of the specification accepts
four intervals, `[0.0,0.3), [0.5,0.8), [0.9,1.2), [1.4,1.7)`, not the
three the claim states: after accepting `[0.5,0.8)` the code's time
cursor holds the output-timeline end `0.6`, not the source end `0.8`, so
the beat at `0.9` is a valid (non-stale) candidate and is accepted. -/
theorem c2_counterexample :
    (timelineSegments (plan cfgScenario (constRand (3/10))).timeline).map
        (fun s => (s.srcStart, s.srcEnd)) =
      [(0, 3/10), (1/2, 4/5), (9/10, 6/5), (7/5, 17/10)] ∧
    ([(0, 3/10), (1/2, 4/5), (9/10, 6/5), (7/5, 17/10)] ≠
      [((0 : ℚ), (3/10 : ℚ)), (1/2, 4/5), (7/5, 17/10)]) := by
  have hc : (⌈(6/7 : ℚ)⌉ : ℤ) = 1 := by norm_num [Int.ceil_eq_iff]
  norm_num [plan, cfgScenario, planLoop, planStep, initState, constRand, segmentEffects,
    velocity_ramp_duration, flash_white, Entry.tlEnd, timelineSegments, Entry.segOf?, List.filterMap_cons, List.filterMap_nil, hc]

/-- C2 amended: the worked scenario accepts exactly four intervals
`[0.0,0.3), [0.5,0.8), [0.9,1.2), [1.4,1.7)` with indices 0-3, and the
segment with index 2 does not receive a velocity ramp (its duration `0.3`
is below `0.6`). -/
theorem c2_amended :
    (timelineSegments (plan cfgScenario (constRand (3/10))).timeline).map
        (fun s => (s.srcStart, s.srcEnd, s.idx)) =
      [(0, 3/10, 0), (1/2, 4/5, 1), (9/10, 6/5, 2), (7/5, 17/10, 3)] ∧
    (timelineSegments (plan cfgScenario (constRand (3/10))).timeline).map
        Segment.hasVelocityRamp = [false, false, false, false] := by
  have hc : (⌈(6/7 : ℚ)⌉ : ℤ) = 1 := by norm_num [Int.ceil_eq_iff]
  norm_num [plan, cfgScenario, planLoop, planStep, initState, constRand, segmentEffects,
    velocity_ramp_duration, flash_white, Entry.tlEnd, timelineSegments, Entry.segOf?, List.filterMap_cons, List.filterMap_nil,
    List.any_cons, List.any_nil, Segment.hasVelocityRamp, Effect.isVelocityRamp, hc]

/-- C3 counterexample: with a single beat at `0.5`, total duration `2`
and length draw `0.3`, the accepted candidate is `[0.5, 0.8)` in source
time, but after acceptance the time cursor holds `t = 0.3` (the appended
clip's end on the output timeline), not the candidate end `0.8`. -/
theorem c3_counterexample :
    (timelineSegments (plan cfgLateBeat (constRand (3/10))).timeline).map
        (fun s => (s.srcStart, s.srcEnd)) = [(1/2, 4/5)] ∧
    (plan cfgLateBeat (constRand (3/10))).t = 3/10 ∧
    ((3/10 : ℚ) ≠ 4/5) := by
  have hc : (⌈(6/7 : ℚ)⌉ : ℤ) = 1 := by norm_num [Int.ceil_eq_iff]
  norm_num [plan, cfgLateBeat, planLoop, planStep, initState, constRand, segmentEffects,
    velocity_ramp_duration, flash_white, Entry.tlEnd, timelineSegments, Entry.segOf?, List.filterMap_cons, List.filterMap_nil, hc]

/-- C4 counterexample: on the run with beats `[0, 0.3, 0.5]`, video
duration `1.2`, music duration `10` and length draws `0.25, 0.25, 1.25`,
the third accepted segment (index 2, source interval `[0.5, 1.2)`,
duration `0.7 ≥ 0.6`) receives a velocity ramp and is reserved
`0.7 · 76/69 = 266/345 ≈ 0.771` seconds of timeline, not its nominal
source duration `0.7`. -/
theorem c4_counterexample :
    (timelineSegments (build_edit (6/5) 10 [0, 3/10, 1/2] (1/4) (5/4) 3 4 true true
          rampRand).timeline).map
        (fun s => (s.hasVelocityRamp, s.srcEnd - s.srcStart, s.dur)) =
      [(false, 1/4, 1/4), (false, 1/4, 1/4), (true, 7/10, 266/345)] ∧
    ((266/345 : ℚ) ≠ 7/10) := by
  have hc1 : (⌈(5/7 : ℚ)⌉ : ℤ) = 1 := by norm_num [Int.ceil_eq_iff]
  have hc2 : (⌈(25/7 : ℚ)⌉ : ℤ) = 4 := by norm_num [Int.ceil_eq_iff]
  norm_num [build_edit, plan, planLoop, planStep, initState, rampRand, segmentEffects,
    velocity_ramp_duration, flash_white, Entry.tlEnd, timelineSegments, Entry.segOf?,
    Segment.hasVelocityRamp, Effect.isVelocityRamp, List.filterMap_cons, List.filterMap_nil,
    List.any_cons, List.any_nil, hc1, hc2, max_def]

/-- C7 counterexample: on the run of `c4_counterexample` (video `1.2`
seconds, music `10` seconds), the last accepted segment's timeline end is
`877/690 ≈ 1.271`, yet the composite duration is clipped to the video
duration `1.2 = min(t, min(video, music))`; the claimed formula
`min(lastSegmentEnd, audioDuration) = 877/690` does not match. -/
theorem c7_counterexample :
    (build_edit (6/5) 10 [0, 3/10, 1/2] (1/4) (5/4) 3 4 true true rampRand).totalDuration = 6/5 ∧
    ((timelineSegments (build_edit (6/5) 10 [0, 3/10, 1/2] (1/4) (5/4) 3 4 true true
          rampRand).timeline).map (fun s => s.tlStart + s.dur)).getLast? = some (877/690) ∧
    ((6/5 : ℚ) ≠ min (877/690) 10) := by
  have hc1 : (⌈(5/7 : ℚ)⌉ : ℤ) = 1 := by norm_num [Int.ceil_eq_iff]
  have hc2 : (⌈(25/7 : ℚ)⌉ : ℤ) = 4 := by norm_num [Int.ceil_eq_iff]
  norm_num [build_edit, plan, planLoop, planStep, initState, rampRand, segmentEffects,
    velocity_ramp_duration, flash_white, Entry.tlEnd, timelineSegments, Entry.segOf?,
    List.filterMap_cons, List.filterMap_nil, hc1, hc2, max_def, min_def]

/-! ## Case analysis of one loop iteration -/

/-- Stale-beat branch: `beats[beat_idx] < t` only advances the beat
cursor. -/
theorem planStep_stale (cfg : Config) (rnd : RandSource) (st : PlanState)
    (h : cfg.beats.getD st.beatIdx 0 < st.t) :
    planStep cfg rnd st = { st with beatIdx := st.beatIdx + 1 } := by
  simp only [planStep]
  rw [if_pos h]

/-- Too-short branch: a candidate with `end - start < 0.12` advances the
beat cursor (and consumes the length draw) but changes nothing else. -/
theorem planStep_reject (cfg : Config) (rnd : RandSource) (st : PlanState)
    (h1 : ¬ cfg.beats.getD st.beatIdx 0 < st.t)
    (h2 : min (cfg.beats.getD st.beatIdx 0 + rnd.lengths st.nLen) cfg.totalDur
        - cfg.beats.getD st.beatIdx 0 < 12/100) :
    planStep cfg rnd st = { st with beatIdx := st.beatIdx + 1, nLen := st.nLen + 1 } := by
  simp only [planStep]
  rw [if_neg h1, if_pos h2]

/-- Acceptance branch, rewritten through `acceptState`. -/
theorem planStep_accept (cfg : Config) (rnd : RandSource) (st : PlanState)
    (h1 : ¬ cfg.beats.getD st.beatIdx 0 < st.t)
    (h2 : ¬ min (cfg.beats.getD st.beatIdx 0 + rnd.lengths st.nLen) cfg.totalDur
        - cfg.beats.getD st.beatIdx 0 < 12/100) :
    planStep cfg rnd st = acceptState cfg rnd st := by
  simp only [planStep, acceptState, acceptedSeg]
  rw [if_neg h1, if_neg h2]
  split
  · simp
  · simp

/-- Every branch of the loop body strictly advances the beat cursor. -/
theorem planStep_beatIdx_lt (cfg : Config) (rnd : RandSource) (st : PlanState) :
    st.beatIdx < (planStep cfg rnd st).beatIdx := by
  by_cases h1 : cfg.beats.getD st.beatIdx 0 < st.t
  · rw [planStep_stale cfg rnd st h1]
    exact Nat.lt_succ_self _
  · by_cases h2 : min (cfg.beats.getD st.beatIdx 0 + rnd.lengths st.nLen) cfg.totalDur
        - cfg.beats.getD st.beatIdx 0 < 12/100
    · rw [planStep_reject cfg rnd st h1 h2]
      exact Nat.lt_succ_self _
    · rw [planStep_accept cfg rnd st h1 h2]
      show st.beatIdx < st.beatIdx + (max 1 ⌈rnd.lengths st.nLen / (35/100 : ℚ)⌉).toNat
      have hmax : (1 : ℤ) ≤ max 1 ⌈rnd.lengths st.nLen / (35/100 : ℚ)⌉ := le_max_left _ _
      omega

/-- When the loop condition fails the loop returns the state unchanged,
whatever the fuel. -/
theorem planLoop_exit (cfg : Config) (rnd : RandSource) (fuel : ℕ) (st : PlanState)
    (h : ¬ (st.t < cfg.totalDur - cfg.clipMin ∧ st.beatIdx < cfg.beats.length)) :
    planLoop cfg rnd fuel st = st := by
  cases fuel with
  | zero => rfl
  | succ n => simp only [planLoop]; rw [if_neg h]

/-- Any two fuel amounts at least `len(beats) - beat_idx` drive the loop to
the same final state: the iteration stabilizes, i.e. the `while` loop
terminates after at most that many iterations. -/
theorem planLoop_congr (cfg : Config) (rnd : RandSource) :
    ∀ n m (st : PlanState), cfg.beats.length - st.beatIdx ≤ n →
      cfg.beats.length - st.beatIdx ≤ m →
      planLoop cfg rnd n st = planLoop cfg rnd m st := by
  intro n
  induction n with
  | zero =>
    intro m st hn _
    have hcond : ¬ (st.t < cfg.totalDur - cfg.clipMin ∧ st.beatIdx < cfg.beats.length) := by
      rintro ⟨-, hlt⟩
      omega
    rw [planLoop_exit cfg rnd 0 st hcond, planLoop_exit cfg rnd m st hcond]
  | succ k ih =>
    intro m st hn hm
    by_cases hcond : st.t < cfg.totalDur - cfg.clipMin ∧ st.beatIdx < cfg.beats.length
    · have hadv := planStep_beatIdx_lt cfg rnd st
      have hm1 : 1 ≤ m := by omega
      obtain ⟨j, rfl⟩ : ∃ j, m = j + 1 := ⟨m - 1, by omega⟩
      show planLoop cfg rnd (k + 1) st = planLoop cfg rnd (j + 1) st
      simp only [planLoop]
      rw [if_pos hcond, if_pos hcond]
      exact ih j (planStep cfg rnd st) (by omega) (by omega)
    · rw [planLoop_exit cfg rnd (k + 1) st hcond, planLoop_exit cfg rnd m st hcond]

/-! ## The loop invariant -/

/-- Velocity-ramp membership in the scheduled effect list. -/
theorem segmentEffects_ramp (cfg : Config) (rnd : RandSource) (st : PlanState) (d : ℚ) :
    ((segmentEffects cfg rnd st d).any Effect.isVelocityRamp = true) ↔
      (st.segIdx % 5 = 2 ∧ (6/10 : ℚ) ≤ d) := by
  unfold segmentEffects
  split_ifs <;>
    simp_all [Effect.isVelocityRamp, Effect.isPunchIn, Effect.isShake, Effect.isColorGrade,
      List.any_append]

/-- Punch-in membership in the scheduled effect list. -/
theorem segmentEffects_punch (cfg : Config) (rnd : RandSource) (st : PlanState) (d : ℚ) :
    ((segmentEffects cfg rnd st d).any Effect.isPunchIn = true) ↔
      st.segIdx % cfg.zoomEveryN = 0 := by
  unfold segmentEffects
  split_ifs <;>
    simp_all [Effect.isVelocityRamp, Effect.isPunchIn, Effect.isShake, Effect.isColorGrade,
      List.any_append]

/-- Shake membership in the scheduled effect list. -/
theorem segmentEffects_shake (cfg : Config) (rnd : RandSource) (st : PlanState) (d : ℚ) :
    ((segmentEffects cfg rnd st d).any Effect.isShake = true) ↔
      (cfg.shake = true ∧ st.segIdx % 2 = 1) := by
  unfold segmentEffects
  split_ifs <;>
    simp_all [Effect.isVelocityRamp, Effect.isPunchIn, Effect.isShake, Effect.isColorGrade,
      List.any_append]

/-- The colour grade is always scheduled. -/
theorem segmentEffects_grade (cfg : Config) (rnd : RandSource) (st : PlanState) (d : ℚ) :
    (segmentEffects cfg rnd st d).any Effect.isColorGrade = true := by
  unfold segmentEffects
  split_ifs <;>
    simp_all [Effect.isVelocityRamp, Effect.isPunchIn, Effect.isShake, Effect.isColorGrade,
      List.any_append]

/-- The segment built on acceptance is well-formed whenever the too-short
test was passed. -/
theorem acceptedSeg_wf (cfg : Config) (rnd : RandSource) (st : PlanState)
    (h2 : ¬ min (cfg.beats.getD st.beatIdx 0 + rnd.lengths st.nLen) cfg.totalDur
        - cfg.beats.getD st.beatIdx 0 < 12/100) :
    SegWF cfg (acceptedSeg cfg rnd st) := by
  unfold SegWF acceptedSeg
  simp only [Segment.hasVelocityRamp, Segment.hasPunchIn, Segment.hasShake,
    Segment.hasColorGrade]
  refine ⟨by linarith [not_lt.mp h2], min_le_right _ _, ?_, ?_, ?_, ?_, ?_⟩
  · exact segmentEffects_ramp cfg rnd st _
  · exact segmentEffects_punch cfg rnd st _
  · exact segmentEffects_shake cfg rnd st _
  · exact segmentEffects_grade cfg rnd st _
  · split_ifs with hr
    · rw [velocity_ramp_duration_eq]
    · rfl

/-- Segment extraction distributes over the pieces appended on
acceptance. -/
theorem timelineSegments_accept (tl : List Entry) (s : Segment) (rest : List Entry)
    (hrest : timelineSegments rest = []) :
    timelineSegments (tl ++ [Entry.seg s] ++ rest) = timelineSegments tl ++ [s] := by
  simp only [timelineSegments] at hrest ⊢
  simp [List.filterMap_append, List.filterMap_cons, List.filterMap_nil, Entry.segOf?, hrest]

/-- Flash extraction distributes over the pieces appended on acceptance. -/
theorem timelineFlashes_accept (tl : List Entry) (s : Segment) (rest : List Entry) :
    timelineFlashes (tl ++ [Entry.seg s] ++ rest) =
      timelineFlashes tl ++ timelineFlashes rest := by
  simp [timelineFlashes, List.filterMap_append, Entry.flashOf?]

/-- The timeline produced by the acceptance branch. -/
theorem acceptState_timeline (cfg : Config) (rnd : RandSource) (st : PlanState) :
    (acceptState cfg rnd st).timeline =
      st.timeline ++ [Entry.seg (acceptedSeg cfg rnd st)]
        ++ (if (st.segIdx + 1) % cfg.flashEveryN = 0
            then [Entry.flash { flash_white (6/100) with
              tlStart := (acceptedSeg cfg rnd st).tlStart }] else []) := rfl

/-- The time cursor produced by the acceptance branch. -/
theorem acceptState_t (cfg : Config) (rnd : RandSource) (st : PlanState) :
    (acceptState cfg rnd st).t =
      (acceptedSeg cfg rnd st).tlStart + (acceptedSeg cfg rnd st).dur := rfl

/-- The beat cursor produced by the acceptance branch. -/
theorem acceptState_beatIdx (cfg : Config) (rnd : RandSource) (st : PlanState) :
    (acceptState cfg rnd st).beatIdx =
      st.beatIdx + (max 1 ⌈rnd.lengths st.nLen / (35/100 : ℚ)⌉).toNat := rfl

/-- The loop invariant is preserved by one iteration of the loop body. -/
theorem Inv_planStep (cfg : Config) (rnd : RandSource) (st : PlanState)
    (h : Inv cfg st) : Inv cfg (planStep cfg rnd st) := by
  obtain ⟨hseg, hflash, ht⟩ := h
  by_cases h1 : cfg.beats.getD st.beatIdx 0 < st.t
  · rw [planStep_stale cfg rnd st h1]
    exact ⟨hseg, hflash, ht⟩
  · by_cases h2 : min (cfg.beats.getD st.beatIdx 0 + rnd.lengths st.nLen) cfg.totalDur
        - cfg.beats.getD st.beatIdx 0 < 12/100
    · rw [planStep_reject cfg rnd st h1 h2]
      exact ⟨hseg, hflash, ht⟩
    · rw [planStep_accept cfg rnd st h1 h2]
      have hrest : timelineSegments (if (st.segIdx + 1) % cfg.flashEveryN = 0
          then [Entry.flash { flash_white (6/100) with
            tlStart := (acceptedSeg cfg rnd st).tlStart }] else []) = [] := by
        split <;> simp [timelineSegments, Entry.segOf?]
      refine ⟨?_, ?_, ?_⟩
      · rw [acceptState_timeline, timelineSegments_accept _ _ _ hrest]
        intro s hs
        rcases List.mem_append.mp hs with hs | hs
        · exact hseg s hs
        · rw [List.mem_singleton.mp hs]
          exact acceptedSeg_wf cfg rnd st h2
      · rw [acceptState_timeline, timelineFlashes_accept,
          timelineSegments_accept _ _ _ hrest, List.filterMap_append, hflash]
        congr 1
        simp only [List.filterMap_cons, List.filterMap_nil, flashFor]
        have hidx : (acceptedSeg cfg rnd st).idx = st.segIdx := rfl
        rw [hidx]
        split <;> simp [timelineFlashes, Entry.flashOf?]
      · intro s hs
        rw [acceptState_timeline, timelineSegments_accept _ _ _ hrest,
          List.getLast?_concat] at hs
        rw [acceptState_t]
        have hs' : s = acceptedSeg cfg rnd st := by
          injection hs with h
          exact h.symm
        rw [hs']

/-- A predicate preserved by the loop body holds after any number of
iterations. -/
theorem planLoop_preserves (cfg : Config) (rnd : RandSource) (P : PlanState → Prop)
    (hstep : ∀ st, P st → P (planStep cfg rnd st)) :
    ∀ fuel st, P st → P (planLoop cfg rnd fuel st) := by
  intro fuel
  induction fuel with
  | zero => intro st h; exact h
  | succ n ih =>
    intro st h
    simp only [planLoop]
    split
    · exact ih _ (hstep _ h)
    · exact h

/-- The loop invariant holds of every completed plan. -/
theorem plan_inv (cfg : Config) (rnd : RandSource) : Inv cfg (plan cfg rnd) := by
  apply planLoop_preserves cfg rnd (Inv cfg) (Inv_planStep cfg rnd)
  refine ⟨?_, ?_, ?_⟩ <;> simp [initState, timelineSegments, timelineFlashes]

/-- Timeline start of the accepted segment. -/
theorem acceptedSeg_tlStart (cfg : Config) (rnd : RandSource) (st : PlanState) :
    (acceptedSeg cfg rnd st).tlStart =
      (match st.timeline.getLast? with
        | none => (0 : ℚ)
        | some e => e.tlEnd) := rfl

/-- Timeline duration of the accepted segment. -/
theorem acceptedSeg_dur (cfg : Config) (rnd : RandSource) (st : PlanState) :
    (acceptedSeg cfg rnd st).dur =
      (if st.segIdx % 5 = 2 ∧ (6/10 : ℚ) ≤
            min (cfg.beats.getD st.beatIdx 0 + rnd.lengths st.nLen) cfg.totalDur
              - cfg.beats.getD st.beatIdx 0
        then velocity_ramp_duration
            (min (cfg.beats.getD st.beatIdx 0 + rnd.lengths st.nLen) cfg.totalDur
              - cfg.beats.getD st.beatIdx 0) (rnd.ramps st.nRamp)
        else min (cfg.beats.getD st.beatIdx 0 + rnd.lengths st.nLen) cfg.totalDur
              - cfg.beats.getD st.beatIdx 0) := rfl

/-! ## Claim theorems -/

/-- C3 amended: on every accepted candidate the code sets the time cursor
to the appended clip's end on the output timeline — the previous timeline
entry's end (0 when the timeline is empty) plus the clip's timeline
duration (the candidate's source duration, stretched by `76/69` when a
velocity ramp fires) — not to the candidate's source end; the beat cursor
advances by `max(1, ceil(length / 0.35))`. -/
theorem c3_accept_postcondition (cfg : Config) (rnd : RandSource) (st : PlanState)
    (h1 : ¬ cfg.beats.getD st.beatIdx 0 < st.t)
    (h2 : ¬ min (cfg.beats.getD st.beatIdx 0 + rnd.lengths st.nLen) cfg.totalDur
        - cfg.beats.getD st.beatIdx 0 < 12/100) :
    (planStep cfg rnd st).t =
      (match st.timeline.getLast? with
        | none => (0 : ℚ)
        | some e => e.tlEnd) +
      (if st.segIdx % 5 = 2 ∧ (6/10 : ℚ) ≤
            min (cfg.beats.getD st.beatIdx 0 + rnd.lengths st.nLen) cfg.totalDur
              - cfg.beats.getD st.beatIdx 0
        then 76/69 * (min (cfg.beats.getD st.beatIdx 0 + rnd.lengths st.nLen) cfg.totalDur
              - cfg.beats.getD st.beatIdx 0)
        else min (cfg.beats.getD st.beatIdx 0 + rnd.lengths st.nLen) cfg.totalDur
              - cfg.beats.getD st.beatIdx 0) ∧
    (planStep cfg rnd st).beatIdx =
      st.beatIdx + (max 1 ⌈rnd.lengths st.nLen / (35/100 : ℚ)⌉).toNat := by
  rw [planStep_accept cfg rnd st h1 h2]
  refine ⟨?_, acceptState_beatIdx cfg rnd st⟩
  rw [acceptState_t, acceptedSeg_tlStart, acceptedSeg_dur]
  congr 1
  split_ifs with h
  · rw [velocity_ramp_duration_eq]
  · rfl

/-- Witness for `c3_accept_postcondition` on the `cfgLateBeat` run: the
accepted candidate is `[0.5, 0.8)` but the time cursor becomes `0.3` and
the beat cursor advances by 1. -/
theorem c3_witness :
    (planStep cfgLateBeat (constRand (3/10)) initState).t = 3/10 ∧
    (planStep cfgLateBeat (constRand (3/10)) initState).beatIdx = 1 := by
  have h := c3_accept_postcondition cfgLateBeat (constRand (3/10)) initState
    (by norm_num [cfgLateBeat, initState, constRand])
    (by norm_num [cfgLateBeat, initState, constRand])
  have hc : (⌈(6/7 : ℚ)⌉ : ℤ) = 1 := by norm_num [Int.ceil_eq_iff]
  constructor
  · rw [h.1]
    norm_num [cfgLateBeat, initState, constRand, timelineSegments]
  · rw [h.2]
    norm_num [cfgLateBeat, initState, constRand, hc]

/-- C4 amended: a segment's reserved timeline duration equals its source
duration exactly when no velocity ramp is attached; with a velocity ramp
it is stretched to `76/69` of the source duration (the two speed factors
`0.75` and `1.15` applied to the clip's halves). -/
theorem c4_amended (cfg : Config) (rnd : RandSource) :
    ∀ s ∈ timelineSegments (plan cfg rnd).timeline,
      (s.hasVelocityRamp = false → s.dur = s.srcEnd - s.srcStart) ∧
      (s.hasVelocityRamp = true → s.dur = 76/69 * (s.srcEnd - s.srcStart)) := by
  intro s hs
  obtain ⟨hseg, -, -⟩ := plan_inv cfg rnd
  obtain ⟨-, -, hramp, -, -, -, hdur⟩ := hseg s hs
  constructor
  · intro hfalse
    rw [hdur, if_neg]
    intro hcond
    rw [← hramp, hfalse] at hcond
    exact Bool.false_ne_true hcond
  · intro htrue
    rw [hdur, if_pos (hramp.mp htrue)]

/-- Witness for `c4_amended` at the ramped segment of the `cfgRamp` run. -/
theorem c4_witness :
    (segRamp.hasVelocityRamp = false → segRamp.dur = segRamp.srcEnd - segRamp.srcStart) ∧
    (segRamp.hasVelocityRamp = true →
      segRamp.dur = 76/69 * (segRamp.srcEnd - segRamp.srcStart)) := by
  apply c4_amended cfgRamp rampRand segRamp
  have hc1 : (⌈(5/7 : ℚ)⌉ : ℤ) = 1 := by norm_num [Int.ceil_eq_iff]
  have hc2 : (⌈(25/7 : ℚ)⌉ : ℤ) = 4 := by norm_num [Int.ceil_eq_iff]
  norm_num [plan, cfgRamp, planLoop, planStep, initState, rampRand, segmentEffects,
    velocity_ramp_duration, flash_white, Entry.tlEnd, timelineSegments, Entry.segOf?,
    List.filterMap_cons, List.filterMap_nil, segRamp, hc1, hc2, max_def]

/-- C5 confirmed: for each accepted segment of index `k`, the punch-in is
attached iff `k mod zoomEveryN = 0`, the shake iff shake is enabled and
`k` is odd, and the colour grade always (the hypothesis excludes
`zoomEveryN = 0`, where the python code would raise `ZeroDivisionError`). -/
theorem c5_effect_periodicity (cfg : Config) (rnd : RandSource)
    (hz : 0 < cfg.zoomEveryN) :
    ∀ s ∈ timelineSegments (plan cfg rnd).timeline,
      (s.hasPunchIn = true ↔ s.idx % cfg.zoomEveryN = 0) ∧
      (s.hasShake = true ↔ (cfg.shake = true ∧ s.idx % 2 = 1)) ∧
      s.hasColorGrade = true := by
  intro s hs
  obtain ⟨hseg, -, -⟩ := plan_inv cfg rnd
  obtain ⟨-, -, -, hp, hsh, hg, -⟩ := hseg s hs
  exact ⟨hp, hsh, hg⟩

/-- Witness for `c5_effect_periodicity` at the segment of the
`cfgOneBeat` run. -/
theorem c5_witness :
    (segOne.hasPunchIn = true ↔ segOne.idx % cfgOneBeat.zoomEveryN = 0) ∧
    (segOne.hasShake = true ↔ (cfgOneBeat.shake = true ∧ segOne.idx % 2 = 1)) ∧
    segOne.hasColorGrade = true := by
  apply c5_effect_periodicity cfgOneBeat (constRand (3/10)) (by norm_num [cfgOneBeat]) segOne
  have hc : (⌈(6/7 : ℚ)⌉ : ℤ) = 1 := by norm_num [Int.ceil_eq_iff]
  norm_num [plan, cfgOneBeat, planLoop, planStep, initState, constRand, segmentEffects,
    velocity_ramp_duration, flash_white, Entry.tlEnd, timelineSegments, Entry.segOf?,
    List.filterMap_cons, List.filterMap_nil, segOne, hc]

/-- C6 confirmed: the flash overlays on the timeline are exactly those of
the accepted segments whose index `k` satisfies `(k+1) mod flashEveryN = 0`,
each placed at its owning segment's timeline start with fixed duration
`0.06` and opacity `0.8` (the hypothesis excludes `flashEveryN = 0`, where
the python code would raise `ZeroDivisionError`). -/
theorem c6_flash_schedule (cfg : Config) (rnd : RandSource)
    (hf : 0 < cfg.flashEveryN) :
    timelineFlashes (plan cfg rnd).timeline =
      (timelineSegments (plan cfg rnd).timeline).filterMap
        (fun s => if (s.idx + 1) % cfg.flashEveryN = 0
          then some { tlStart := s.tlStart, dur := 6/100, opacity := 8/10 } else none) := by
  obtain ⟨-, hflash, -⟩ := plan_inv cfg rnd
  have hfn : flashFor cfg = fun s => if (s.idx + 1) % cfg.flashEveryN = 0
      then some { tlStart := s.tlStart, dur := 6/100, opacity := (8/10 : ℚ) } else none := by
    funext s
    rfl
  rw [hflash, hfn]

/-- Witness for `c6_flash_schedule` on the `cfgOneBeat` run (where the
single accepted segment triggers a flash). -/
theorem c6_witness :
    timelineFlashes (plan cfgOneBeat (constRand (3/10))).timeline =
      (timelineSegments (plan cfgOneBeat (constRand (3/10))).timeline).filterMap
        (fun s => if (s.idx + 1) % cfgOneBeat.flashEveryN = 0
          then some { tlStart := s.tlStart, dur := 6/100, opacity := 8/10 } else none) :=
  c6_flash_schedule cfgOneBeat (constRand (3/10)) (by norm_num [cfgOneBeat])

/-- C7 amended: for every run accepting at least one segment, the
composite duration is `min(lastSegment.timelineEnd, min(videoDuration,
audioDuration))`: the clip is to the shorter of video and music, not to
the music alone. -/
theorem c7_amended (videoDur musicDur : ℚ) (beats : List ℚ) (clip_min clip_max : ℚ)
    (zn fn : ℕ) (shk lb : Bool) (rnd : RandSource) (s : Segment)
    (hlast : (timelineSegments (build_edit videoDur musicDur beats clip_min clip_max
        zn fn shk lb rnd).timeline).getLast? = some s) :
    (build_edit videoDur musicDur beats clip_min clip_max zn fn shk lb rnd).totalDuration =
      min (s.tlStart + s.dur) (min videoDur musicDur) := by
  obtain ⟨-, -, ht⟩ := plan_inv
    { beats := beats, totalDur := min videoDur musicDur, clipMin := clip_min,
      clipMax := clip_max, zoomEveryN := zn, flashEveryN := fn, shake := shk } rnd
  have hts := ht s hlast
  show min (plan _ rnd).t (min videoDur musicDur) = _
  rw [hts]

/-- Witness for `c7_amended` on the `rampRand` run. -/
theorem c7_witness :
    (build_edit (6/5) 10 [0, 3/10, 1/2] (1/4) (5/4) 3 4 true true rampRand).totalDuration =
      min (segRamp.tlStart + segRamp.dur) (min (6/5) 10) := by
  apply c7_amended (6/5) 10 [0, 3/10, 1/2] (1/4) (5/4) 3 4 true true rampRand segRamp
  have hc1 : (⌈(5/7 : ℚ)⌉ : ℤ) = 1 := by norm_num [Int.ceil_eq_iff]
  have hc2 : (⌈(25/7 : ℚ)⌉ : ℤ) = 4 := by norm_num [Int.ceil_eq_iff]
  norm_num [build_edit, plan, planLoop, planStep, initState, rampRand, segmentEffects,
    velocity_ramp_duration, flash_white, Entry.tlEnd, timelineSegments, Entry.segOf?,
    List.filterMap_cons, List.filterMap_nil, segRamp, hc1, hc2, max_def]

/-- C8 confirmed: every accepted source interval satisfies `end > start`,
`end - start ≥ 0.12` and `end ≤ totalAvailableDuration`; and a non-stale
candidate failing the minimum length is dropped by advancing the beat
cursor by one (consuming its length draw) without touching the timeline,
the time cursor or the segment index. -/
theorem c8_accepted_invariant :
    (∀ (cfg : Config) (rnd : RandSource),
      ∀ s ∈ timelineSegments (plan cfg rnd).timeline,
        s.srcStart < s.srcEnd ∧ 12/100 ≤ s.srcEnd - s.srcStart ∧
          s.srcEnd ≤ cfg.totalDur) ∧
    (∀ (cfg : Config) (rnd : RandSource) (st : PlanState),
      ¬ cfg.beats.getD st.beatIdx 0 < st.t →
      min (cfg.beats.getD st.beatIdx 0 + rnd.lengths st.nLen) cfg.totalDur
          - cfg.beats.getD st.beatIdx 0 < 12/100 →
      planStep cfg rnd st = { st with beatIdx := st.beatIdx + 1, nLen := st.nLen + 1 }) := by
  constructor
  · intro cfg rnd s hs
    obtain ⟨hseg, -, -⟩ := plan_inv cfg rnd
    obtain ⟨hmin, hle, -⟩ := hseg s hs
    exact ⟨by linarith, hmin, hle⟩
  · intro cfg rnd st h1 h2
    exact planStep_reject cfg rnd st h1 h2

/-- Witness for `c8_accepted_invariant`: the interval invariant at the
`cfgOneBeat` segment, and the rejection behaviour on a `0.02`-length
draw. -/
theorem c8_witness :
    (segOne.srcStart < segOne.srcEnd ∧ 12/100 ≤ segOne.srcEnd - segOne.srcStart ∧
      segOne.srcEnd ≤ cfgOneBeat.totalDur) ∧
    planStep cfgOneBeat (constRand (1/50)) initState =
      { initState with beatIdx := 1, nLen := 1 } := by
  constructor
  · apply c8_accepted_invariant.1 cfgOneBeat (constRand (3/10)) segOne
    have hc : (⌈(6/7 : ℚ)⌉ : ℤ) = 1 := by norm_num [Int.ceil_eq_iff]
    norm_num [plan, cfgOneBeat, planLoop, planStep, initState, constRand, segmentEffects,
      velocity_ramp_duration, flash_white, Entry.tlEnd, timelineSegments, Entry.segOf?,
      List.filterMap_cons, List.filterMap_nil, segOne, hc]
  · exact c8_accepted_invariant.2 cfgOneBeat (constRand (1/50)) initState
      (by norm_num [cfgOneBeat, initState, constRand])
      (by norm_num [cfgOneBeat, initState, constRand])

/-- C10 confirmed: the planning loop terminates — any fuel of at least
`len(beats) - beat_idx` iterations drives the loop to its unique final
state, because every branch of the body strictly advances the beat cursor
and the loop condition requires `beat_idx < len(beats)`. -/
theorem c10_termination (cfg : Config) (rnd : RandSource) (st : PlanState) (fuel : ℕ)
    (h : cfg.beats.length - st.beatIdx ≤ fuel) :
    planLoop cfg rnd fuel st = planLoop cfg rnd (cfg.beats.length - st.beatIdx) st :=
  planLoop_congr cfg rnd fuel (cfg.beats.length - st.beatIdx) st h le_rfl

/-- Witness for `c10_termination` on the `cfgOneBeat` run with surplus
fuel. -/
theorem c10_witness :
    planLoop cfgOneBeat (constRand (3/10)) 7 initState =
      planLoop cfgOneBeat (constRand (3/10))
        (cfgOneBeat.beats.length - initState.beatIdx) initState :=
  c10_termination cfgOneBeat (constRand (3/10)) initState 7
    (by norm_num [cfgOneBeat, initState])

/-! ## Beat detection (C9) -/

/-- Everything the spacing filter keeps lies at least `g` above the
running `last` value. -/
theorem min_gap_filter_mem_le (g : ℚ) (hg : 0 ≤ g) :
    ∀ (l : List ℚ) (last x : ℚ), x ∈ min_gap_filter g last l → last + g ≤ x := by
  intro l
  induction l with
  | nil =>
    intro last x hx
    simp [min_gap_filter] at hx
  | cons a ts ih =>
    intro last x hx
    simp only [min_gap_filter] at hx
    by_cases h : a - last ≥ g
    · rw [if_pos h] at hx
      rcases List.mem_cons.mp hx with rfl | hx'
      · linarith
      · have := ih a x hx'
        linarith
    · rw [if_neg h] at hx
      exact ih last x hx

/-- The spacing filter output has adjacent gaps of at least `g`. -/
theorem min_gap_filter_chain (g : ℚ) (hg : 0 ≤ g) :
    ∀ (l : List ℚ) (last : ℚ),
      List.Chain' (fun a b => a + g ≤ b) (min_gap_filter g last l) := by
  intro l
  induction l with
  | nil =>
    intro last
    simp [min_gap_filter]
  | cons a ts ih =>
    intro last
    simp only [min_gap_filter]
    by_cases h : a - last ≥ g
    · rw [if_pos h]
      refine List.chain'_cons'.mpr ⟨?_, ih a⟩
      intro y hy
      exact min_gap_filter_mem_le g hg ts a y (List.mem_of_mem_head? hy)
    · rw [if_neg h]
      exact ih last

/-- Bankers rounding moves a value up by at most one half. -/
theorem roundHalfEven_le (x : ℚ) : (roundHalfEven x : ℚ) ≤ x + 1/2 := by
  have h0 : (0:ℚ) ≤ Int.fract x := Int.fract_nonneg x
  have h1 : Int.fract x < 1 := Int.fract_lt_one x
  have hf : Int.fract x = x - ⌊x⌋ := rfl
  unfold roundHalfEven
  split_ifs with ha hb hev
  · linarith [Int.floor_le x]
  · push_cast
    linarith
  · linarith [Int.floor_le x]
  · have h2 : (1:ℚ)/2 ≤ Int.fract x := not_lt.mp ha
    push_cast
    linarith

/-- Bankers rounding moves a value down by at most one half. -/
theorem roundHalfEven_ge (x : ℚ) : x - 1/2 ≤ (roundHalfEven x : ℚ) := by
  have h1 : Int.fract x < 1 := Int.fract_lt_one x
  have hf : Int.fract x = x - ⌊x⌋ := rfl
  unfold roundHalfEven
  split_ifs with ha hb hev
  · linarith
  · push_cast
    linarith
  · have h2 : ¬ (1:ℚ)/2 < Int.fract x := hb
    linarith [not_lt.mp h2]
  · push_cast
    linarith

/-- Rounding attains the upper bound `x + 1/2` only at an even result
(half up happens only from an odd floor). -/
theorem roundHalfEven_even_of_eq_add_half (x : ℚ)
    (h : (roundHalfEven x : ℚ) = x + 1/2) : Even (roundHalfEven x) := by
  have h0 : (0:ℚ) ≤ Int.fract x := Int.fract_nonneg x
  have h1 : Int.fract x < 1 := Int.fract_lt_one x
  have hf : Int.fract x = x - ⌊x⌋ := rfl
  unfold roundHalfEven at h ⊢
  split_ifs at h ⊢ with ha hb hev
  · exfalso
    linarith
  · exfalso
    push_cast at h
    linarith
  · exfalso
    linarith
  · exact Int.even_add_one.mpr hev

/-- Rounding attains the lower bound `x - 1/2` only at an even result. -/
theorem roundHalfEven_even_of_eq_sub_half (x : ℚ)
    (h : (roundHalfEven x : ℚ) = x - 1/2) : Even (roundHalfEven x) := by
  have h1 : Int.fract x < 1 := Int.fract_lt_one x
  have hf : Int.fract x = x - ⌊x⌋ := rfl
  unfold roundHalfEven at h ⊢
  split_ifs at h ⊢ with ha hb hev
  · exfalso
    linarith
  · exfalso
    push_cast at h
    linarith
  · exact hev
  · exfalso
    push_cast at h
    linarith

/-- A gap of at least `120` units survives bankers rounding: the only way
to lose a unit would force both endpoints to round to the parity-breaking
half cases, which would make an odd difference of two even numbers. -/
theorem roundHalfEven_gap (x y : ℚ) (h : x + 120 ≤ y) :
    roundHalfEven x + 120 ≤ roundHalfEven y := by
  have hle := roundHalfEven_le x
  have hge := roundHalfEven_ge y
  have h119 : (119 : ℤ) ≤ roundHalfEven y - roundHalfEven x := by
    have hq : (119 : ℚ) ≤ (roundHalfEven y : ℚ) - (roundHalfEven x : ℚ) := by linarith
    exact_mod_cast hq
  by_cases heq : roundHalfEven y - roundHalfEven x = 119
  · exfalso
    have hcast : (roundHalfEven y : ℚ) - (roundHalfEven x : ℚ) = 119 := by
      exact_mod_cast heq
    have hx : (roundHalfEven x : ℚ) = x + 1/2 := by linarith
    have hy : (roundHalfEven y : ℚ) = y - 1/2 := by linarith
    obtain ⟨a, ha⟩ := roundHalfEven_even_of_eq_add_half x hx
    obtain ⟨b, hb⟩ := roundHalfEven_even_of_eq_sub_half y hy
    omega
  · omega

/-- Monotone-gap transfer of `round(x, 3)`: adjacent spacing of at least
`0.12` is preserved by rounding both ends to 3 decimals. -/
theorem pyRound3_gap (a b : ℚ) (h : a + 12/100 ≤ b) :
    pyRound3 a + 12/100 ≤ pyRound3 b := by
  have h' : 1000 * a + 120 ≤ 1000 * b := by linarith
  have hg := roundHalfEven_gap (1000 * a) (1000 * b) h'
  have hg' : (roundHalfEven (1000 * a) : ℚ) + 120 ≤ (roundHalfEven (1000 * b) : ℚ) := by
    exact_mod_cast hg
  unfold pyRound3
  linarith

/-- The adjacency gap survives mapping `round(x, 3)` over the list. -/
theorem chain_gap_map_round (l : List ℚ)
    (h : List.Chain' (fun a b => a + 12/100 ≤ b) l) :
    List.Chain' (fun a b => a + 12/100 ≤ b) (l.map pyRound3) := by
  rw [List.chain'_map]
  exact List.Chain'.imp (fun a b hab => pyRound3_gap a b hab) h

/-- Every later element of a gap-chained list is at least one gap above
the head. -/
theorem chain_gap_le_of_mem :
    ∀ (l : List ℚ) (a : ℚ), List.Chain' (fun a b => a + 12/100 ≤ b) (a :: l) →
      ∀ b ∈ l, a + 12/100 ≤ b := by
  intro l
  induction l with
  | nil =>
    intro a _ b hb
    simp at hb
  | cons c ts ih =>
    intro a hch b hb
    have hac : a + 12/100 ≤ c := (List.chain'_cons.mp hch).1
    rcases List.mem_cons.mp hb with rfl | hb'
    · exact hac
    · have := ih c (List.chain'_cons.mp hch).2 b hb'
      linarith

/-- A gap-chained list is pairwise gap-separated. -/
theorem chain_gap_pairwise :
    ∀ (l : List ℚ), List.Chain' (fun a b => a + 12/100 ≤ b) l →
      List.Pairwise (fun a b => a + 12/100 ≤ b) l := by
  intro l
  induction l with
  | nil =>
    intro _
    exact List.Pairwise.nil
  | cons a ts ih =>
    intro h
    refine List.pairwise_cons.mpr ⟨chain_gap_le_of_mem ts a h, ?_⟩
    exact ih (List.chain'_cons'.mp h).2

/-- C9 confirmed: for any onset-time and strong-frame inputs, the beat
list returned by `detect_beats` is strictly increasing (hence
duplicate-free) and adjacent entries are at least `0.12` seconds apart —
the spacing filter guarantees raw gaps of at least `0.12`, the `0.001`
rounding grid cannot shrink such a gap below `0.12` (by the bankers-
rounding parity argument), and the final dedup-and-sort is then the
identity. -/
theorem c9_detect_beats (onsets strong : List ℚ) :
    List.Pairwise (· < ·) (detect_beats onsets strong) ∧
    List.Chain' (fun a b => a + 12/100 ≤ b) (detect_beats onsets strong) := by
  have hchain : List.Chain' (fun a b => a + 12/100 ≤ b)
      ((min_gap_filter (12/100) (-999)
        (List.insertionSort (· ≤ ·) (onsets ++ strong))).map pyRound3) :=
    chain_gap_map_round _ (min_gap_filter_chain (12/100) (by norm_num) _ _)
  have hpairlt : List.Pairwise (· < ·)
      ((min_gap_filter (12/100) (-999)
        (List.insertionSort (· ≤ ·) (onsets ++ strong))).map pyRound3) :=
    (chain_gap_pairwise _ hchain).imp (fun hab => by linarith)
  have hded := List.dedup_eq_self.mpr (hpairlt.imp (fun hab => ne_of_lt hab))
  have hsort := List.Sorted.insertionSort_eq (hpairlt.imp (fun hab => le_of_lt hab))
  have hdb : detect_beats onsets strong =
      (min_gap_filter (12/100) (-999)
        (List.insertionSort (· ≤ ·) (onsets ++ strong))).map pyRound3 := by
    simp only [detect_beats]
    rw [hded, hsort]
  rw [hdb]
  exact ⟨hpairlt, hchain⟩

end AnimeEdit
